import Mathlib

/-!
Verification of the speedserver streaming engine (src/index.js).

Numbers that JavaScript handles as IEEE doubles are modelled as rationals.
Multiplying by `1024 * 1024` is exact on doubles (a power of two only shifts
the exponent), so the only floating-point fact the development depends on is
the exact value of the literal `0.1`, which is recorded in `jsLit01`.
Buffer allocation (`Buffer.alloc` / `Uint8Array`, reached from
`crypto.randomBytes` as well) converts a fractional byte count with ToIndex,
which truncates toward zero; `bufferLen` records that conversion.
-/

namespace SpeedServer

/-- Payload patterns accepted by `generateTestData` (src/index.js:61-89).
`other` stands for any unknown pattern string, which the switch statement
sends to the `default: crypto.randomBytes` branch. -/
inductive Pattern
  | random
  | compressible
  | incompressible
  | other
deriving DecidableEq

/-- The exact value of the IEEE-754 double denoted by the JavaScript literal
`0.1`: the nearest double to 1/10, namely 3602879701896397 / 2^55. -/
def jsLit01 : ℚ := 3602879701896397 / 2 ^ 55

/-- Byte length actually allocated for a requested (possibly fractional)
byte count: `Uint8Array`'s ToIndex conversion truncates toward zero.
All sizes reaching the allocator in the program are nonnegative. -/
def bufferLen (sizeInBytes : ℚ) : ℕ := (⌊sizeInBytes⌋).toNat

/-- Byte at index `i` of a generated buffer (src/index.js:68-83).
`rnd` supplies the bytes drawn from `crypto.randomBytes` for the
`random`/default branches; the other two branches are deterministic. -/
def genByte (p : Pattern) (rnd : ℕ → ℕ) (i : ℕ) : ℕ :=
  match p with
  | Pattern.compressible => 0x41
  | Pattern.incompressible => (i * 137 + 19) % 256
  | _ => rnd i % 256

/-- `generateTestData(sizeInMB, pattern)` (src/index.js:61-89): the byte
sequence of the buffer produced for a cache miss.  The cache returns the
same buffer for the same key, so contents and length are unaffected by it.
`sizeInBytes = sizeInMB * 1024 * 1024` is computed on doubles (exactly,
as a power-of-two product) and the allocation truncates it. -/
def generateTestData (sizeInMB : ℚ) (p : Pattern) (rnd : ℕ → ℕ) : List ℕ :=
  (List.range (bufferLen (sizeInMB * 1024 * 1024))).map (genByte p rnd)

/-- Fixed chunk size of the download stream writer: 64 KiB (src/index.js:285). -/
def chunkSize : ℕ := 64 * 1024

/-- One in-order trace of the `sendChunk` loop (src/index.js:293-320) run to
normal completion: starting from `offset`, repeatedly slice
`[offset, min(offset + chunkSize, length))`, record `(offset, chunk)`, and
advance the offset by the slice length.  Backpressure only suspends the loop
between writes and does not change which chunks are written. -/
def sendChunkTrace (data : List ℕ) (offset : ℕ) : List (ℕ × List ℕ) :=
  if _h : offset < data.length then
    let chunk := (data.drop offset).take (min (offset + chunkSize) data.length - offset)
    (offset, chunk) :: sendChunkTrace data (offset + chunk.length)
  else []
termination_by data.length - offset
decreasing_by
  simp only [chunk, List.length_take, List.length_drop, chunkSize]
  omega

/-- Concatenation of the chunk payloads of a trace, i.e. the byte stream the
sink receives. -/
def chunksBytes (l : List (ℕ × List ℕ)) : List ℕ :=
  l.foldr (fun pc acc => pc.2 ++ acc) []

/-- The offsets of a chunk list are contiguous starting from `a`:
each chunk starts exactly where the previous one ended (no gap, no overlap). -/
def contiguousFrom : ℕ → List (ℕ × List ℕ) → Prop
  | _, [] => True
  | a, pc :: rest => pc.1 = a ∧ contiguousFrom (a + pc.2.length) rest

/-- Response of the `/api/download/:size` handler (src/index.js:259-335),
restricted to what the claims are about: status code, the structured error
body if any, and the chunk trace streamed on success.  `sizeParam` is the
`parseFloat` result for the `:size` path segment (`none` for NaN). -/
structure DownloadResponse where
  status : ℕ
  error : Option String
  chunks : List (ℕ × List ℕ)
deriving DecidableEq

/-- The `/api/download/:size` handler (src/index.js:259-335): reject with a
400 `{error}` body when the size is NaN or outside `[0.1, 10]` (compared
against the double `0.1`), otherwise stream the generated buffer in 64 KiB
chunks from offset 0. -/
def downloadHandler (sizeParam : Option ℚ) (p : Pattern) (rnd : ℕ → ℕ) : DownloadResponse :=
  match sizeParam with
  | none => ⟨400, some "Invalid size. Must be between 0.1 and 10 MB", []⟩
  | some size =>
    if size < jsLit01 ∨ 10 < size then
      ⟨400, some "Invalid size. Must be between 0.1 and 10 MB", []⟩
    else
      ⟨200, none, sendChunkTrace (generateTestData size p rnd) 0⟩

end SpeedServer

namespace SpeedServer

theorem chunksBytes_nil : chunksBytes [] = [] := rfl

theorem chunksBytes_cons (pc : ℕ × List ℕ) (l : List (ℕ × List ℕ)) :
    chunksBytes (pc :: l) = pc.2 ++ chunksBytes l := rfl

theorem chunksBytes_length (l : List (ℕ × List ℕ)) :
    (chunksBytes l).length = (l.map (fun pc => pc.2.length)).sum := by
  induction l with
  | nil => rfl
  | cons pc rest ih => simp [chunksBytes_cons, ih]

theorem generateTestData_length (s : ℚ) (p : Pattern) (rnd : ℕ → ℕ) :
    (generateTestData s p rnd).length = bufferLen (s * 1024 * 1024) := by
  simp [generateTestData]

theorem generateTestData_compressible_mem (s : ℚ) (rnd : ℕ → ℕ) :
    ∀ b ∈ generateTestData s Pattern.compressible rnd, b = 0x41 := by
  intro b hb
  simp only [generateTestData, List.mem_map, List.mem_range] at hb
  obtain ⟨i, _, hi⟩ := hb
  simpa [genByte] using hi.symm

theorem sendChunkTrace_bytes (data : List ℕ) (offset : ℕ) :
    chunksBytes (sendChunkTrace data offset) = data.drop offset := by
  rw [sendChunkTrace]
  split
  · next h =>
    have hlen : ((data.drop offset).take (min (offset + chunkSize) data.length - offset)).length
        = min (offset + chunkSize) data.length - offset := by
      simp only [List.length_take, List.length_drop]
      omega
    rw [chunksBytes_cons, sendChunkTrace_bytes data, hlen]
    have hdd : data.drop (offset + (min (offset + chunkSize) data.length - offset))
        = (data.drop offset).drop (min (offset + chunkSize) data.length - offset) := by
      rw [List.drop_drop, Nat.add_comm]
    rw [hdd]
    exact List.take_append_drop _ _
  · next h =>
    rw [chunksBytes_nil, eq_comm, List.drop_eq_nil_iff]
    omega
termination_by data.length - offset
decreasing_by
  simp only [List.length_take, List.length_drop, chunkSize]
  omega

theorem sendChunkTrace_contiguous (data : List ℕ) (offset : ℕ) :
    contiguousFrom offset (sendChunkTrace data offset) := by
  rw [sendChunkTrace]
  split
  · next h =>
    exact ⟨rfl, sendChunkTrace_contiguous data _⟩
  · next h => trivial
termination_by data.length - offset
decreasing_by
  simp only [List.length_take, List.length_drop, chunkSize]
  omega

theorem sendChunkTrace_mem (data : List ℕ) (offset : ℕ) :
    ∀ pc ∈ sendChunkTrace data offset,
      offset ≤ pc.1 ∧ 0 < pc.2.length ∧ pc.2.length ≤ chunkSize ∧
        pc.1 + pc.2.length ≤ data.length := by
  intro pc hpc
  rw [sendChunkTrace] at hpc
  split at hpc
  · next h =>
    rcases List.mem_cons.1 hpc with heq | hmem
    · subst heq
      refine ⟨le_refl _, ?_, ?_, ?_⟩ <;>
        (simp only [List.length_take, List.length_drop, chunkSize] at *; omega)
    · have ih := sendChunkTrace_mem data _ pc hmem
      refine ⟨?_, ih.2.1, ih.2.2.1, ih.2.2.2⟩
      have h1 := ih.1
      simp only [List.length_take, List.length_drop] at h1
      omega
  · next h => simp at hpc
termination_by data.length - offset
decreasing_by
  simp only [List.length_take, List.length_drop, chunkSize]
  omega

theorem sendChunkTrace_pairwise (data : List ℕ) (offset : ℕ) :
    ((sendChunkTrace data offset).map Prod.fst).Pairwise (· < ·) := by
  rw [sendChunkTrace]
  split
  · next h =>
    rw [List.map_cons, List.pairwise_cons]
    constructor
    · intro o ho
      simp only [List.mem_map] at ho
      obtain ⟨pc, hpc, hfst⟩ := ho
      have hmem := sendChunkTrace_mem data _ pc hpc
      have h1 := hmem.1
      simp only [List.length_take, List.length_drop, chunkSize] at h1 ⊢
      omega
    · exact sendChunkTrace_pairwise data _
  · next h => simp
termination_by data.length - offset
decreasing_by
  simp only [List.length_take, List.length_drop, chunkSize]
  omega

/-- A fixed choice of random-byte source, used to instantiate theorems whose
statements do not depend on the random bytes. -/
def rnd0 : ℕ → ℕ := fun _ => 0

theorem bufferLen_01 : bufferLen (jsLit01 * 1024 * 1024) = 104857 := by
  have h : ⌊jsLit01 * 1024 * 1024⌋ = 104857 := by
    rw [jsLit01]
    norm_num [Int.floor_eq_iff]
  rw [bufferLen, h]
  rfl

theorem one_tenth_lt_jsLit01 : (1 / 10 : ℚ) < jsLit01 := by
  rw [jsLit01]
  norm_num

theorem round_01_bytes : (round (jsLit01 * 1024 * 1024) : ℤ) = 104858 := by
  rw [round_eq, jsLit01]
  norm_num [Int.floor_eq_iff]

/-- C1: the claim says the generated buffer length is
`round(sizeInMB * 1024 * 1024)` for every valid size and pattern.  This is
false at the valid size 0.1 MB (the double `jsLit01`) with pattern
`compressible`: the code computes `sizeInMB * 1024 * 1024` without rounding
and the allocation truncates it, so the buffer has 104857 bytes while
rounding 104857.6 gives 104858. -/
theorem C1_counterexample :
    ((1 / 10 : ℚ) ≤ jsLit01 ∧ jsLit01 ≤ 10) ∧
    (generateTestData jsLit01 Pattern.compressible rnd0).length = 104857 ∧
    (round (jsLit01 * 1024 * 1024) : ℤ) = 104858 ∧
    ((generateTestData jsLit01 Pattern.compressible rnd0).length : ℤ) ≠
      round (jsLit01 * 1024 * 1024) := by
  have hlen : (generateTestData jsLit01 Pattern.compressible rnd0).length = 104857 := by
    rw [generateTestData_length, bufferLen_01]
  refine ⟨⟨le_of_lt one_tenth_lt_jsLit01, ?_⟩, hlen, round_01_bytes, ?_⟩
  · rw [jsLit01]
    norm_num
  · rw [hlen, round_01_bytes]
    decide

/-- C1 (amended): for every valid size and pattern the generated buffer
length equals the truncation `⌊sizeInMB * 1024 * 1024⌋` of the exact byte
count, not its rounding; the two agree except when the byte count is
fractional, as it is for 0.1 MB. -/
theorem C1_amended (s : ℚ) (p : Pattern) (rnd : ℕ → ℕ)
    (_h : 1 / 10 ≤ s ∧ s ≤ 10) :
    (generateTestData s p rnd).length = (⌊s * 1024 * 1024⌋).toNat := by
  rw [generateTestData_length, bufferLen]

/-- C1 (witness): the amended statement applied at the valid size 1/2 MB. -/
theorem C1_amended_witness :
    ((1 / 10 : ℚ) ≤ 1 / 2 ∧ (1 / 2 : ℚ) ≤ 10) ∧
    (generateTestData (1 / 2) Pattern.compressible rnd0).length
      = (⌊(1 / 2 : ℚ) * 1024 * 1024⌋).toNat :=
  ⟨⟨by norm_num, by norm_num⟩,
    C1_amended (1 / 2) Pattern.compressible rnd0 ⟨by norm_num, by norm_num⟩⟩

/-- C2: a fixed-size download of 0.1 MB with pattern `compressible` responds
with status 200 and streams exactly 104857 payload bytes, every one of which
is the byte 0x41. -/
theorem C2_thm (rnd : ℕ → ℕ) :
    (downloadHandler (some jsLit01) Pattern.compressible rnd).status = 200 ∧
    (chunksBytes (downloadHandler (some jsLit01) Pattern.compressible rnd).chunks).length
      = 104857 ∧
    ∀ b ∈ chunksBytes (downloadHandler (some jsLit01) Pattern.compressible rnd).chunks,
      b = 0x41 := by
  have hcond : ¬(jsLit01 < jsLit01 ∨ (10 : ℚ) < jsLit01) := by
    rw [jsLit01]
    norm_num
  have hh : downloadHandler (some jsLit01) Pattern.compressible rnd =
      ⟨200, none, sendChunkTrace (generateTestData jsLit01 Pattern.compressible rnd) 0⟩ := by
    rw [downloadHandler, if_neg hcond]
  rw [hh]
  have hbytes : chunksBytes
      (sendChunkTrace (generateTestData jsLit01 Pattern.compressible rnd) 0)
      = generateTestData jsLit01 Pattern.compressible rnd := by
    rw [sendChunkTrace_bytes, List.drop_zero]
  refine ⟨rfl, ?_, ?_⟩
  · rw [hbytes, generateTestData_length, bufferLen_01]
  · rw [hbytes]
    exact generateTestData_compressible_mem jsLit01 rnd

/-- C3: a fixed-size download of a buffer of N bytes, run to normal
completion, writes chunks whose lengths sum to N exactly and whose
concatenation is the buffer itself; the chunks sit at contiguous
(gap-free, non-overlapping) offsets starting at 0, the offsets are strictly
increasing, every chunk is at most 64 KiB, and every chunk fits below N
(so the session offset never exceeds N). -/
theorem C3_thm (data : List ℕ) :
    ((sendChunkTrace data 0).map (fun pc => pc.2.length)).sum = data.length ∧
    chunksBytes (sendChunkTrace data 0) = data ∧
    contiguousFrom 0 (sendChunkTrace data 0) ∧
    ((sendChunkTrace data 0).map Prod.fst).Pairwise (· < ·) ∧
    (∀ pc ∈ sendChunkTrace data 0, pc.2.length ≤ 64 * 1024) ∧
    (∀ pc ∈ sendChunkTrace data 0, pc.1 + pc.2.length ≤ data.length) := by
  have hbytes : chunksBytes (sendChunkTrace data 0) = data := by
    rw [sendChunkTrace_bytes, List.drop_zero]
  refine ⟨?_, hbytes, sendChunkTrace_contiguous data 0, sendChunkTrace_pairwise data 0,
    ?_, ?_⟩
  · rw [← chunksBytes_length, hbytes]
  · intro pc hpc
    exact (sendChunkTrace_mem data 0 pc hpc).2.2.1
  · intro pc hpc
    exact (sendChunkTrace_mem data 0 pc hpc).2.2.2

/-- C4: a fixed-size download request whose size parameter is NaN or lies
outside the range [0.1, 10] MB is answered with status 400, a structured
error body, and an empty chunk trace (no payload bytes streamed). -/
theorem C4_thm (sizeParam : Option ℚ) (p : Pattern) (rnd : ℕ → ℕ)
    (h : ∀ s, sizeParam = some s → s < 1 / 10 ∨ 10 < s) :
    (downloadHandler sizeParam p rnd).status = 400 ∧
    (downloadHandler sizeParam p rnd).error =
      some "Invalid size. Must be between 0.1 and 10 MB" ∧
    (downloadHandler sizeParam p rnd).chunks = [] := by
  match sizeParam with
  | none => exact ⟨rfl, rfl, rfl⟩
  | some s =>
    have hs : s < jsLit01 ∨ 10 < s := by
      rcases h s rfl with hlt | hgt
      · exact Or.inl (lt_trans hlt one_tenth_lt_jsLit01)
      · exact Or.inr hgt
    rw [downloadHandler, if_pos hs]
    exact ⟨rfl, rfl, rfl⟩

/-- Result of one tick of the adaptive download loop `sendData`
(src/index.js:451-491): either the session is ended normally via `res.end()`
(the `elapsed >= duration` branch), or a chunk of `chunkSizeMB` megabytes is
written and the next tick is scheduled after `nextDelay` milliseconds. -/
inductive TickResult
  | ended : TickResult
  | wrote : (chunkSizeMB : ℚ) → (nextDelay : ℚ) → TickResult
deriving DecidableEq

/-- One tick of the adaptive download `sendData` (src/index.js:451-491).
`elapsed` is `(now - startTime) / 1000`, i.e. seconds since the session
started; all other parameters are the clamped query parameters. -/
def adaptiveTick (initialSize maxSize duration throttle elapsed : ℚ) : TickResult :=
  if duration ≤ elapsed then TickResult.ended
  else
    let progress := elapsed / duration
    let targetSize := initialSize + (maxSize - initialSize) * min (progress * 2) 1
    let currentSize := min targetSize maxSize
    TickResult.wrote (max (currentSize * (3 / 100) * throttle) (1 / 20))
      (min 300 (100 + elapsed * 10 / throttle))

/-- Chunk size written by a tick, when it wrote one. -/
def tickChunk : TickResult → Option ℚ
  | TickResult.ended => none
  | TickResult.wrote sz _ => some sz

/-- Delay scheduled by a tick, when it wrote a chunk. -/
def tickDelay : TickResult → Option ℚ
  | TickResult.ended => none
  | TickResult.wrote _ dly => some dly

/-- The chunk-size formula of the code (src/index.js:464-471): the ramped
target is clamped to `maxSize` before the 3 percent fraction is taken. -/
def codeChunkSizeMB (initialSize maxSize duration throttle elapsed : ℚ) : ℚ :=
  max (min (initialSize + (maxSize - initialSize) * min (elapsed / duration * 2) 1) maxSize
    * (3 / 100) * throttle) (1 / 20)

/-- The chunk-size formula as the claim words it: a fraction of the unclamped
`targetSize` itself. -/
def claimChunkSizeMB (initialSize maxSize duration throttle elapsed : ℚ) : ℚ :=
  max ((initialSize + (maxSize - initialSize) * min (elapsed / duration * 2) 1)
    * (3 / 100) * throttle) (1 / 20)

/-- The delay formula as the claim words it: `min(300, 100 + elapsed_ms*10/r)`
with the elapsed time taken in milliseconds. -/
def claimNextDelay (throttle elapsedMs : ℚ) : ℚ :=
  min 300 (100 + elapsedMs * 10 / throttle)

/-- Clamping of the `initial` query parameter (src/index.js:424):
`Math.max(parseFloat(req.query.initial) || 1, 0.1)`; `none` models NaN and
the value 0 is falsy, both falling back to the default 1. -/
def adaptiveInitialSize (q : Option ℚ) : ℚ :=
  max (match q with | none => 1 | some x => if x = 0 then 1 else x) (1 / 10)

/-- Clamping of the `max` query parameter (src/index.js:425):
`Math.min(parseFloat(req.query.max) || 5, 10)`. -/
def adaptiveMaxSize (q : Option ℚ) : ℚ :=
  min (match q with | none => 5 | some x => if x = 0 then 5 else x) 10

/-- A run of the adaptive download loop over the monotone sequence of elapsed
times at which its ticks fire: returns the `(elapsed, chunkSizeMB)` pairs
written and whether the run ended with the normal-completion `res.end()`
(`false` means the supplied tick sequence was exhausted while the session was
still active). -/
def adaptiveRun (initialSize maxSize duration throttle : ℚ) :
    List ℚ → List (ℚ × ℚ) × Bool
  | [] => ([], false)
  | t :: ts =>
    match adaptiveTick initialSize maxSize duration throttle t with
    | TickResult.ended => ([], true)
    | TickResult.wrote sz _ =>
      let rest := adaptiveRun initialSize maxSize duration throttle ts
      ((t, sz) :: rest.1, rest.2)

/-- C5: in every adaptive download run whose tick sequence reaches the
duration bound, every chunk is written strictly before `duration` seconds
have elapsed — no write ever happens at or after the bound — and the session
ends with the normal-completion path. -/
theorem C5_thm (initialSize maxSize duration throttle : ℚ) (times : List ℚ)
    (h : ∃ t ∈ times, duration ≤ t) :
    (∀ c ∈ (adaptiveRun initialSize maxSize duration throttle times).1,
      c.1 < duration) ∧
    (adaptiveRun initialSize maxSize duration throttle times).2 = true := by
  induction times with
  | nil => simp at h
  | cons t ts ih =>
    by_cases hd : duration ≤ t
    · have : adaptiveTick initialSize maxSize duration throttle t = TickResult.ended := by
        rw [adaptiveTick, if_pos hd]
      constructor
      · intro c hc
        rw [adaptiveRun] at hc
        rw [this] at hc
        simp at hc
      · rw [adaptiveRun, this]
    · have hlt : t < duration := lt_of_not_le hd
      have hwrote : adaptiveTick initialSize maxSize duration throttle t =
          TickResult.wrote (codeChunkSizeMB initialSize maxSize duration throttle t)
            (min 300 (100 + t * 10 / throttle)) := by
        rw [adaptiveTick, if_neg (not_le.2 hlt)]
        rfl
      have hts : ∃ u ∈ ts, duration ≤ u := by
        rcases h with ⟨u, hu, hdu⟩
        rcases List.mem_cons.1 hu with rfl | hmem
        · exact absurd hdu hd
        · exact ⟨u, hmem, hdu⟩
      obtain ⟨ih1, ih2⟩ := ih hts
      constructor
      · intro c hc
        rw [adaptiveRun, hwrote] at hc
        simp only [List.mem_cons] at hc
        rcases hc with rfl | hmem
        · exact hlt
        · exact ih1 c hmem
      · rw [adaptiveRun, hwrote]
        exact ih2

/-- C5 (witness): a run ticking at 0 and 6 seconds with a 5 second duration
ends with the normal completion. -/
theorem C5_witness :
    ((5 : ℚ) ≤ 6) ∧ (adaptiveRun 1 5 5 1 [0, 6]).2 = true :=
  ⟨by norm_num,
    (C5_thm 1 5 5 1 [0, 6] ⟨6, by simp, by norm_num⟩).2⟩

/-- C6: the claim says the chunk written on a tick is
`max(targetSize * 0.03 * throttle, 0.05)` with the unclamped ramp target,
for all admissible parameters including `initial > max`.  This is false: the
code clamps the target with `min(targetSize, maxSize)` first.  At
`initial = 20`, `max = 5` (both reachable through the query clamps),
`duration = 5`, `throttle = 1`, `elapsed = 0`, the code writes a 0.15 MB
chunk while the claimed formula gives 0.6 MB. -/
theorem C6_counterexample :
    adaptiveInitialSize (some 20) = 20 ∧
    adaptiveMaxSize (some 5) = 5 ∧
    tickChunk (adaptiveTick 20 5 5 1 0) = some (3 / 20) ∧
    claimChunkSizeMB 20 5 5 1 0 = 3 / 5 ∧
    (3 / 20 : ℚ) ≠ 3 / 5 := by
  refine ⟨?_, ?_, ?_, ?_, by norm_num⟩
  · rw [adaptiveInitialSize]
    norm_num
  · rw [adaptiveMaxSize]
    norm_num
  · norm_num [adaptiveTick, tickChunk]
  · rw [claimChunkSizeMB]
    norm_num

/-- C6 (amended): on every tick that writes (`elapsed < duration`), the chunk
size in MB is `max(min(targetSize, maxSize) * 0.03 * throttle, 0.05)` — the
ramp target is clamped to `maxSize` before the fraction is taken — and in
particular it never falls below the 0.05 MB floor.  When
`initial ≤ max` the clamp is inert and this coincides with the claimed
formula. -/
theorem C6_amended (initialSize maxSize duration throttle elapsed : ℚ)
    (h : elapsed < duration) :
    tickChunk (adaptiveTick initialSize maxSize duration throttle elapsed) =
      some (codeChunkSizeMB initialSize maxSize duration throttle elapsed) ∧
    1 / 20 ≤ codeChunkSizeMB initialSize maxSize duration throttle elapsed := by
  constructor
  · rw [adaptiveTick, if_neg (not_le.2 h), tickChunk, codeChunkSizeMB]
  · exact le_max_right _ _

/-- C6 (witness): the amended statement applied at
`initial = 1, max = 5, duration = 5, throttle = 1, elapsed = 0`. -/
theorem C6_amended_witness :
    ((0 : ℚ) < 5) ∧
    tickChunk (adaptiveTick 1 5 5 1 0) = some (codeChunkSizeMB 1 5 5 1 0) ∧
    1 / 20 ≤ codeChunkSizeMB 1 5 5 1 0 :=
  ⟨by norm_num, C6_amended 1 5 5 1 0 (by norm_num)⟩

/-- C7: the claim says the delay before the next tick is
`min(300, 100 + elapsed_ms * 10 / throttle)` with the elapsed time in
milliseconds.  This is false: the code divides the elapsed time by 1000
first, so the formula uses seconds.  At 1000 ms elapsed (1 s) and
`throttle = 1` the code schedules 110 ms while the claimed formula gives
300 ms. -/
theorem C7_counterexample :
    tickDelay (adaptiveTick 1 5 5 1 1) = some 110 ∧
    claimNextDelay 1 1000 = 300 ∧
    (110 : ℚ) ≠ 300 := by
  refine ⟨?_, ?_, by norm_num⟩
  · norm_num [adaptiveTick, tickDelay]
  · rw [claimNextDelay]
    norm_num

/-- C7 (amended): on every tick that writes, the scheduled delay is
`min(300, 100 + elapsed_seconds * 10 / throttle)` milliseconds, where
`elapsed_seconds = elapsed_ms / 1000`; for nonnegative elapsed time and
positive throttle the delay always lies between 100 and 300 ms. -/
theorem C7_amended (initialSize maxSize duration throttle elapsedMs : ℚ)
    (h : elapsedMs / 1000 < duration) (hr : 0 < throttle) (he : 0 ≤ elapsedMs) :
    tickDelay (adaptiveTick initialSize maxSize duration throttle (elapsedMs / 1000)) =
      some (min 300 (100 + elapsedMs / 1000 * 10 / throttle)) ∧
    100 ≤ min 300 (100 + elapsedMs / 1000 * 10 / throttle) ∧
    min 300 (100 + elapsedMs / 1000 * 10 / throttle) ≤ 300 := by
  refine ⟨?_, ?_, min_le_left _ _⟩
  · rw [adaptiveTick, if_neg (not_le.2 h), tickDelay]
  · refine le_min (by norm_num) ?_
    have hpos : 0 ≤ elapsedMs / 1000 * 10 / throttle := by positivity
    linarith

/-- C7 (witness): the amended statement applied at 1000 ms elapsed,
`duration = 5`, `throttle = 1`. -/
theorem C7_amended_witness :
    ((1000 : ℚ) / 1000 < 5 ∧ (0 : ℚ) < 1 ∧ (0 : ℚ) ≤ 1000) ∧
    tickDelay (adaptiveTick 1 5 5 1 (1000 / 1000)) =
      some (min 300 (100 + 1000 / 1000 * 10 / 1)) ∧
    100 ≤ min 300 (100 + (1000 : ℚ) / 1000 * 10 / 1) ∧
    min 300 (100 + (1000 : ℚ) / 1000 * 10 / 1) ≤ 300 :=
  ⟨⟨by norm_num, by norm_num, by norm_num⟩,
    C7_amended 1 5 5 1 1000 (by norm_num) (by norm_num) (by norm_num)⟩

/-- Observable events of a warmup session (src/index.js:180-256): writing a
payload of a given size in MB, waiting a delay in ms, and ending the
response stream. -/
inductive WEvent
  | write : (sizeMB : ℚ) → WEvent
  | wait : (ms : ℚ) → WEvent
  | endStream : WEvent
deriving DecidableEq

/-- The fixed warmup phase table (src/index.js:191-196): `(size MB, delay ms)`
pairs; the literal `0.1` is the double `jsLit01`. -/
def warmupPhases : List (ℚ × ℚ) :=
  [(jsLit01, 100), (1 / 2, 150), (1, 200), (2, 250)]

/-- Event trace of the `sendPhase` loop (src/index.js:205-246) run to normal
completion over the remaining phases: each phase writes its payload and then
waits its delay; after the last phase's delay the stream is ended
(`setTimeout(() => res.end(), phase.delay)`), and with no phases at all the
stream is ended immediately. -/
def sendPhase : List (ℚ × ℚ) → List WEvent
  | [] => [WEvent.endStream]
  | [(sz, dly)] => [WEvent.write sz, WEvent.wait dly, WEvent.endStream]
  | (sz, dly) :: rest => WEvent.write sz :: WEvent.wait dly :: sendPhase rest

/-- C8: a warmup session run to normal completion emits exactly 4 payload
phases in the fixed size order [0.1, 0.5, 1.0, 2.0] MB, each followed by its
fixed delay of 100, 150, 200 and 250 ms respectively, and ends the stream
after the last delay. -/
theorem C8_thm :
    sendPhase warmupPhases =
      [WEvent.write jsLit01, WEvent.wait 100,
       WEvent.write (1 / 2), WEvent.wait 150,
       WEvent.write 1, WEvent.wait 200,
       WEvent.write 2, WEvent.wait 250,
       WEvent.endStream] := rfl

/-- One latency measurement record (src/index.js:143-148): index, server
timestamp, and latency computed as that timestamp minus the session start. -/
structure Measurement where
  index : ℕ
  serverTime : ℚ
  latency : ℚ
deriving DecidableEq

/-- The clamped measurement count of `/api/latency-advanced`
(src/index.js:133): `Math.min(parseInt(req.query.count) || 5, 10)`; `none`
models NaN and the value 0 is falsy, both falling back to the default 5. -/
def latencyCount (copt : Option ℤ) : ℤ :=
  min (match copt with | none => 5 | some c => if c = 0 then 5 else c) 10

/-- The clamped measurement spacing of `/api/latency-advanced`
(src/index.js:134): `Math.max(parseInt(req.query.interval) || 50, 100)`. -/
def latencyInterval (vopt : Option ℤ) : ℤ :=
  max (match vopt with | none => 50 | some v => if v = 0 then 50 else v) 100

/-- The `performMeasurement` loop (src/index.js:140-176): at call `index` it
records the current clock value and the latency against the session start
`t0`, then recurses until the completed count (`index + 1`) reaches `count`.
`clock` gives the timestamp observed by the call with a given index. -/
def performMeasurement (count : ℤ) (t0 : ℚ) (clock : ℕ → ℚ) (index : ℕ) :
    List Measurement :=
  let m : Measurement := ⟨index, clock index, clock index - t0⟩
  if count ≤ (index : ℤ) + 1 then [m]
  else m :: performMeasurement count t0 clock (index + 1)
termination_by (count - index).toNat
decreasing_by
  omega

theorem performMeasurement_length (count : ℤ) (t0 : ℚ) (clock : ℕ → ℚ) (index : ℕ) :
    (performMeasurement count t0 clock index).length = max (count - index).toNat 1 := by
  rw [performMeasurement]
  split
  · next h =>
    simp only [List.length_singleton]
    omega
  · next h =>
    rw [List.length_cons, performMeasurement_length count t0 clock (index + 1)]
    omega
termination_by (count - index).toNat
decreasing_by
  omega

theorem performMeasurement_latency (count : ℤ) (t0 : ℚ) (clock : ℕ → ℚ) (index : ℕ) :
    ∀ m ∈ performMeasurement count t0 clock index,
      m.latency = m.serverTime - t0 := by
  intro m hm
  rw [performMeasurement] at hm
  split at hm
  · next h =>
    rcases List.mem_singleton.1 hm with rfl
    rfl
  · next h =>
    rcases List.mem_cons.1 hm with rfl | hmem
    · rfl
    · exact performMeasurement_latency count t0 clock (index + 1) m hmem
termination_by (count - index).toNat
decreasing_by
  omega

/-- Minimum of a nonempty latency list, as `Math.min(...latencies)` computes
it; the empty case never occurs in the program (at least one measurement is
always taken). -/
def listMin : List ℚ → ℚ
  | [] => 0
  | x :: xs => xs.foldl min x

/-- Maximum of a nonempty latency list, as `Math.max(...latencies)`. -/
def listMax : List ℚ → ℚ
  | [] => 0
  | x :: xs => xs.foldl max x

/-- The 3-decimal formatting `toFixed(3)` applied throughout the responses:
round to the nearest thousandth, ties away from the smaller value (the
ECMAScript rule picks the larger candidate, which is Mathlib's `round`). -/
def toFixed3 (q : ℚ) : ℚ := (round (q * 1000) : ℤ) / 1000

/-- The statistics block of the `/api/latency-advanced` response
(src/index.js:160-170), after `toFixed(3)` formatting. -/
structure LatencyReport where
  count : ℕ
  average : ℚ
  minimum : ℚ
  maximum : ℚ
  jitter : ℚ
deriving DecidableEq

/-- The `/api/latency-advanced` handler (src/index.js:132-177): clamp the
inputs, run the measurement loop from index 0, and aggregate.  Returns the
measurement list, the formatted statistics, and the inter-measurement
spacing in ms used by the `setTimeout` scheduling. -/
def latencyHandler (copt vopt : Option ℤ) (t0 : ℚ) (clock : ℕ → ℚ) :
    List Measurement × LatencyReport × ℤ :=
  let count := latencyCount copt
  let interval := latencyInterval vopt
  let ms := performMeasurement count t0 clock 0
  let ls := ms.map Measurement.latency
  (ms,
    ⟨ms.length, toFixed3 (ls.sum / ls.length), toFixed3 (listMin ls),
      toFixed3 (listMax ls), toFixed3 (listMax ls - listMin ls)⟩,
    interval)

theorem foldl_min_mem (xs : List ℚ) : ∀ a : ℚ, xs.foldl min a ∈ a :: xs := by
  induction xs with
  | nil => intro a; simp
  | cons x xs ih =>
    intro a
    rw [List.foldl_cons]
    rcases List.mem_cons.1 (ih (min a x)) with heq | hmem
    · rw [heq]
      rcases min_choice a x with h | h <;> rw [h] <;> simp
    · simp [hmem]

theorem foldl_min_le (xs : List ℚ) : ∀ a : ℚ, ∀ y ∈ a :: xs, xs.foldl min a ≤ y := by
  induction xs with
  | nil => intro a y hy; simp at hy; simp [hy]
  | cons x xs ih =>
    intro a y hy
    rw [List.foldl_cons]
    rcases List.mem_cons.1 hy with rfl | hy
    · exact le_trans (ih _ _ (List.mem_cons_self _ _)) (min_le_left _ _)
    · rcases List.mem_cons.1 hy with rfl | hy
      · exact le_trans (ih _ _ (List.mem_cons_self _ _)) (min_le_right _ _)
      · exact ih (min a x) y (List.mem_cons_of_mem _ hy)

theorem foldl_max_mem (xs : List ℚ) : ∀ a : ℚ, xs.foldl max a ∈ a :: xs := by
  induction xs with
  | nil => intro a; simp
  | cons x xs ih =>
    intro a
    rw [List.foldl_cons]
    rcases List.mem_cons.1 (ih (max a x)) with heq | hmem
    · rw [heq]
      rcases max_choice a x with h | h <;> rw [h] <;> simp
    · simp [hmem]

theorem foldl_le_max (xs : List ℚ) : ∀ a : ℚ, ∀ y ∈ a :: xs, y ≤ xs.foldl max a := by
  induction xs with
  | nil => intro a y hy; simp at hy; simp [hy]
  | cons x xs ih =>
    intro a y hy
    rw [List.foldl_cons]
    rcases List.mem_cons.1 hy with rfl | hy
    · exact le_trans (le_max_left _ _) (ih _ _ (List.mem_cons_self _ _))
    · rcases List.mem_cons.1 hy with rfl | hy
      · exact le_trans (le_max_right _ _) (ih _ _ (List.mem_cons_self _ _))
      · exact ih (max a x) y (List.mem_cons_of_mem _ hy)

theorem listMin_mem (ls : List ℚ) (h : ls ≠ []) : listMin ls ∈ ls := by
  match ls with
  | [] => exact absurd rfl h
  | x :: xs => exact foldl_min_mem xs x

theorem listMin_le (ls : List ℚ) : ∀ y ∈ ls, listMin ls ≤ y := by
  match ls with
  | [] => intro y hy; simp at hy
  | x :: xs => exact foldl_min_le xs x

theorem listMax_mem (ls : List ℚ) (h : ls ≠ []) : listMax ls ∈ ls := by
  match ls with
  | [] => exact absurd rfl h
  | x :: xs => exact foldl_max_mem xs x

theorem le_listMax (ls : List ℚ) : ∀ y ∈ ls, y ≤ listMax ls := by
  match ls with
  | [] => intro y hy; simp at hy
  | x :: xs => exact foldl_le_max xs x

/-- Latency list of a `/api/latency-advanced` response, for stating the
aggregation properties. -/
def latencyLats (copt vopt : Option ℤ) (t0 : ℚ) (clock : ℕ → ℚ) : List ℚ :=
  ((latencyHandler copt vopt t0 clock).1).map Measurement.latency

/-- C9: the claim says a probe with requested count `c` performs
`min(c, 10)` measurements.  This is false at `c = 0`: the code computes
`Math.min(parseInt(req.query.count) || 5, 10)` and 0 is falsy, so a
requested count of 0 falls back to the default and 5 measurements are
performed rather than `min(0, 10) = 0`. -/
theorem C9_counterexample :
    (latencyHandler (some 0) (some 100) 0 (fun n => (n : ℚ))).1.length = 5 ∧
    min (0 : ℤ) 10 = 0 ∧
    ((latencyHandler (some 0) (some 100) 0 (fun n => (n : ℚ))).1.length : ℤ) ≠
      min (0 : ℤ) 10 := by
  have h0 : (latencyHandler (some 0) (some 100) 0 (fun n => (n : ℚ))).1 =
      performMeasurement (latencyCount (some 0)) 0 (fun n => (n : ℚ)) 0 := rfl
  have hc : latencyCount (some 0) = 5 := by norm_num [latencyCount]
  have h1 : (latencyHandler (some 0) (some 100) 0 (fun n => (n : ℚ))).1.length = 5 := by
    rw [h0, performMeasurement_length, hc]
    rfl
  refine ⟨h1, rfl, ?_⟩
  rw [h1]
  decide

/-- C9 (amended): for every probe with a nonzero requested count `c` and
requested interval `v`, the aggregator performs `max(min(c, 10), 1)`
measurements (at least one is always taken; a zero count instead falls back
to the default of 5) spaced `max(v, 100)` ms apart; each measurement's
latency is its timestamp minus the session start; and the response
statistics are, formatted to 3 decimals: the arithmetic mean, the minimum
and maximum of the collected latencies (genuinely attained bounds), and the
jitter `maximum - minimum`. -/
theorem C9_amended (c v : ℤ) (t0 : ℚ) (clock : ℕ → ℚ) (hc : c ≠ 0) :
    (latencyHandler (some c) (some v) t0 clock).1.length = (max (min c 10) 1).toNat ∧
    (latencyHandler (some c) (some v) t0 clock).2.2 = max v 100 ∧
    (∀ m ∈ (latencyHandler (some c) (some v) t0 clock).1,
      m.latency = m.serverTime - t0) ∧
    (latencyHandler (some c) (some v) t0 clock).2.1 =
      ⟨(latencyHandler (some c) (some v) t0 clock).1.length,
       toFixed3 ((latencyLats (some c) (some v) t0 clock).sum /
         (latencyLats (some c) (some v) t0 clock).length),
       toFixed3 (listMin (latencyLats (some c) (some v) t0 clock)),
       toFixed3 (listMax (latencyLats (some c) (some v) t0 clock)),
       toFixed3 (listMax (latencyLats (some c) (some v) t0 clock) -
         listMin (latencyLats (some c) (some v) t0 clock))⟩ ∧
    listMin (latencyLats (some c) (some v) t0 clock) ∈
      latencyLats (some c) (some v) t0 clock ∧
    listMax (latencyLats (some c) (some v) t0 clock) ∈
      latencyLats (some c) (some v) t0 clock ∧
    (∀ y ∈ latencyLats (some c) (some v) t0 clock,
      listMin (latencyLats (some c) (some v) t0 clock) ≤ y ∧
      y ≤ listMax (latencyLats (some c) (some v) t0 clock)) := by
  have hms : (latencyHandler (some c) (some v) t0 clock).1 =
      performMeasurement (latencyCount (some c)) t0 clock 0 := rfl
  have hcount : latencyCount (some c) = min c 10 := by
    simp [latencyCount, hc]
  have hlen : (latencyHandler (some c) (some v) t0 clock).1.length
      = (max (min c 10) 1).toNat := by
    rw [hms, performMeasurement_length, hcount]
    omega
  have hne : latencyLats (some c) (some v) t0 clock ≠ [] := by
    have : (latencyLats (some c) (some v) t0 clock).length
        = (latencyHandler (some c) (some v) t0 clock).1.length := by
      rw [latencyLats, List.length_map]
    intro hnil
    rw [hnil] at this
    rw [hlen] at this
    simp at this
    omega
  refine ⟨hlen, ?_, ?_, rfl, listMin_mem _ hne, listMax_mem _ hne, ?_⟩
  · have : (latencyHandler (some c) (some v) t0 clock).2.2 =
        latencyInterval (some v) := rfl
    rw [this]
    by_cases hv : v = 0
    · subst hv
      norm_num [latencyInterval]
    · simp [latencyInterval, hv]
  · intro m hm
    rw [hms] at hm
    exact performMeasurement_latency _ t0 clock 0 m hm
  · intro y hy
    exact ⟨listMin_le _ y hy, le_listMax _ y hy⟩

/-- C9 (witness): the amended statement applied at requested count 5 and
interval 100 ms: 5 measurements, spaced 100 ms. -/
theorem C9_amended_witness :
    ((5 : ℤ) ≠ 0) ∧
    (latencyHandler (some 5) (some 100) 0 (fun n => (n : ℚ))).1.length
      = (max (min (5 : ℤ) 10) 1).toNat ∧
    (latencyHandler (some 5) (some 100) 0 (fun n => (n : ℚ))).2.2
      = max (100 : ℤ) 100 :=
  ⟨by decide,
    (C9_amended 5 100 0 (fun n => (n : ℚ)) (by decide)).1,
    (C9_amended 5 100 0 (fun n => (n : ℚ)) (by decide)).2.1⟩

/-- The upload throughput computation of `/api/upload` (src/index.js:532-533):
`totalTime > 0 ? (dataSize * 8) / ((totalTime / 1000) * 1024 * 1024) : 0`. -/
def uploadSpeedMbps (dataSize : ℕ) (totalTime : ℚ) : ℚ :=
  if 0 < totalTime then (dataSize * 8) / ((totalTime / 1000) * 1024 * 1024) else 0

/-- The throughput computation of `/api/upload-multi` (src/index.js:606-609),
identical in structure with `totalDuration` in place of `totalTime`. -/
def multiUploadSpeedMbps (dataSize : ℕ) (totalDuration : ℚ) : ℚ :=
  if 0 < totalDuration then (dataSize * 8) / ((totalDuration / 1000) * 1024 * 1024) else 0

/-- C10: on both upload endpoints, whenever the computed total time is
nonpositive the reported speed is 0 — the division is guarded behind
`totalTime > 0` — and the reported value is never negative. -/
theorem C10_thm (dataSize : ℕ) (t : ℚ) (h : t ≤ 0) :
    uploadSpeedMbps dataSize t = 0 ∧
    multiUploadSpeedMbps dataSize t = 0 ∧
    0 ≤ uploadSpeedMbps dataSize t ∧
    0 ≤ multiUploadSpeedMbps dataSize t := by
  have h1 : uploadSpeedMbps dataSize t = 0 := by
    rw [uploadSpeedMbps, if_neg (not_lt.2 h)]
  have h2 : multiUploadSpeedMbps dataSize t = 0 := by
    rw [multiUploadSpeedMbps, if_neg (not_lt.2 h)]
  exact ⟨h1, h2, by rw [h1], by rw [h2]⟩

/-- C10 (witness): a client-declared start timestamp later than the receive
end gives a negative total time, and both endpoints report 0 Mbps. -/
theorem C10_witness :
    ((-5 : ℚ) ≤ 0) ∧
    uploadSpeedMbps 1000 (-5) = 0 ∧
    multiUploadSpeedMbps 1000 (-5) = 0 ∧
    0 ≤ uploadSpeedMbps 1000 (-5) ∧
    0 ≤ multiUploadSpeedMbps 1000 (-5) :=
  ⟨by norm_num, C10_thm 1000 (-5) (by norm_num)⟩

/-- C4 (witness): the size -1 MB is rejected with a 400 error and no chunks. -/
theorem C4_witness :
    (downloadHandler (some (-1)) Pattern.random rnd0).status = 400 ∧
    (downloadHandler (some (-1)) Pattern.random rnd0).error =
      some "Invalid size. Must be between 0.1 and 10 MB" ∧
    (downloadHandler (some (-1)) Pattern.random rnd0).chunks = [] :=
  C4_thm (some (-1)) Pattern.random rnd0 (by
    intro s hs
    injection hs with hs
    subst hs
    norm_num)

end SpeedServer
